import Mathlib

/-!
Verification of the generic tree-selection engine in
`src/components/tree-list/tree-list.tsx`.

The engine reconciles three pieces of state:
  * a tree of nodes (two structural variants: category-like and geography-like),
  * an internal key-to-boolean Selection Map (a JS object; absent keys are falsy),
  * an externally owned array of selected display names.

We embed the node type, the accessor functions, and every selection/expansion
operation the claims refer to.  JS objects used as string-keyed boolean maps are
modelled as total functions `String → Bool` (absent = `false`, matching the
engine, which only ever reads entries truthily).  The expansion map, whose
claims distinguish absent entries from `false` entries, is modelled as an
association list with JS-object assignment semantics.
-/

namespace TreeListSpec

/-- The two node shapes of `type TreeNodeType = CategoryNode | GeographyNode`.
`CategoryNode` carries `productID? / categoryID? / productName /
canSelectsubcategories / categories`; `GeographyNode` carries `geographyID? /
geographyName / canSelectSubGeographies / geographies` — exactly the fields the
engine reads. -/
inductive TreeNodeType where
  | categoryNode (productID : Option Int) (categoryID : Option Int)
      (productName : String) (canSelectsubcategories : Bool)
      (categories : List TreeNodeType)
  | geographyNode (geographyID : Option Int) (geographyName : String)
      (canSelectSubGeographies : Bool) (geographies : List TreeNodeType)

/-- `getNodeKey`: `String(productID ?? categoryID ?? productName)` for
category nodes, `String(geographyID ?? geographyName)` for geography nodes. -/
def getNodeKey : TreeNodeType → String
  | .categoryNode productID categoryID productName _ _ =>
      match productID with
      | some i => toString i
      | none =>
        match categoryID with
        | some i => toString i
        | none => productName
  | .geographyNode geographyID geographyName _ _ =>
      match geographyID with
      | some i => toString i
      | none => geographyName

/-- `getNodeName`: the display name of a node. -/
def getNodeName : TreeNodeType → String
  | .categoryNode _ _ productName _ _ => productName
  | .geographyNode _ geographyName _ _ => geographyName

/-- `getNodeChildren`: `node.categories` resp. `node.geographies`. -/
def getNodeChildren : TreeNodeType → List TreeNodeType
  | .categoryNode _ _ _ _ categories => categories
  | .geographyNode _ _ _ geographies => geographies

/-- `getCanSelectSubItems`: the per-node subtree-selectability flag. -/
def getCanSelectSubItems : TreeNodeType → Bool
  | .categoryNode _ _ _ canSelectsubcategories _ => canSelectsubcategories
  | .geographyNode _ _ canSelectSubGeographies _ => canSelectSubGeographies

/-- A JS object used as a string-keyed boolean map; absent keys read `false`. -/
def SelMap : Type := String → Bool

/-- `map[key] = v` on a JS boolean map. -/
def updateMap (m : SelMap) (key : String) (v : Bool) : SelMap :=
  fun k => if k = key then v else m k

/-- The empty Selection Map `{}`. -/
def emptyMap : SelMap := fun _ => false

/-- Pre-order list of every node of a forest: each node, then its whole
subtree, then its later siblings — the traversal order shared by
`collectAllNodes`, `collectNames`, `markSelectedNodes` and `findNodeByName`. -/
def allNodes : List TreeNodeType → List TreeNodeType
  | [] => []
  | .categoryNode a b c d children :: rest =>
      .categoryNode a b c d children :: (allNodes children ++ allNodes rest)
  | .geographyNode a b c children :: rest =>
      .geographyNode a b c children :: (allNodes children ++ allNodes rest)

/-- `collectNames`: push every node's name in pre-order (used by the inbound
sync aggregate and by `toggleSelectAll`). -/
def collectNames : List TreeNodeType → List String
  | [] => []
  | .categoryNode a b c d children :: rest =>
      getNodeName (.categoryNode a b c d children) ::
        (collectNames children ++ collectNames rest)
  | .geographyNode a b c children :: rest =>
      getNodeName (.geographyNode a b c children) ::
        (collectNames children ++ collectNames rest)

/-- Forest induction: to prove a property of every node list, prove it for `[]`
and for `n :: rest` assuming it for `n`'s children and for `rest`. -/
def forestInd (P : List TreeNodeType → Prop) (hnil : P [])
    (hcons : ∀ n rest, P (getNodeChildren n) → P rest → P (n :: rest)) :
    ∀ l, P l
  | [] => hnil
  | .categoryNode a b c d children :: rest =>
      hcons (.categoryNode a b c d children) rest
        (forestInd P hnil hcons children) (forestInd P hnil hcons rest)
  | .geographyNode a b c children :: rest =>
      hcons (.geographyNode a b c children) rest
        (forestInd P hnil hcons children) (forestInd P hnil hcons rest)

/-- The engine state a selection operation reads and writes: the Selection Map
`selection`, the aggregate `isAllSelected` flag, and the externally owned
selected-names array `items` (the engine mutates it through
`actualSetSelectedItems`; we model the mutator-present path, so the array is a
state component). -/
structure EngineState where
  selection : SelMap
  isAllSelected : Bool
  items : List String

/-- One step of `markSelectedNodes` for one node: look the node's name up in
the external array and, when found, set the node's key to `true` in the map
under construction (`if (isSelected) newSelection[nodeKey] = true`). -/
def markStep (actualSelectedItems : List String) (n : TreeNodeType)
    (m : SelMap) : SelMap :=
  if actualSelectedItems.contains (getNodeName n) then
    updateMap m (getNodeKey n) true
  else m

/-- `markSelectedNodes`: the inbound-sync traversal; for each node in pre-order
set its entry from array membership of its name, then recurse into the
children, then the later siblings. -/
def markSelectedNodes (actualSelectedItems : List String) :
    List TreeNodeType → SelMap → SelMap
  | [], m => m
  | .categoryNode a b c d children :: rest, m =>
      markSelectedNodes actualSelectedItems rest
        (markSelectedNodes actualSelectedItems children
          (markStep actualSelectedItems (.categoryNode a b c d children) m))
  | .geographyNode a b c children :: rest, m =>
      markSelectedNodes actualSelectedItems rest
        (markSelectedNodes actualSelectedItems children
          (markStep actualSelectedItems (.geographyNode a b c children) m))

/-- The inbound-sync Selection Map: `markSelectedNodes` run on the whole tree
starting from the fresh empty object `newSelection = {}`. -/
def syncSelection (actualSelectedItems : List String)
    (data : List TreeNodeType) : SelMap :=
  markSelectedNodes actualSelectedItems data emptyMap

/-- The aggregate flag recomputed by inbound sync:
`allItemNames.length > 0 && allItemNames.every(name => actualSelectedItems.includes(name))`. -/
def isAllCurrentlySelected (data : List TreeNodeType)
    (actualSelectedItems : List String) : Bool :=
  decide ((collectNames data).length > 0)
    && (collectNames data).all (fun name => actualSelectedItems.contains name)

/-- The inbound-sync effect: rebuild the Selection Map from the external array
and recompute the aggregate flag; the array itself is only read. -/
def inboundSync (data : List TreeNodeType) (st : EngineState) : EngineState :=
  { selection := syncSelection st.items data
    isAllSelected := isAllCurrentlySelected data st.items
    items := st.items }

/-- `setNodeSelection`, generalized to a node list processed left to right
(the source folds it over the root array in `toggleSelectAll`): write the
node's key, recurse into its children, then continue with the later nodes. -/
def setListSelection (isSelected : Bool) :
    List TreeNodeType → SelMap → SelMap
  | [], m => m
  | .categoryNode a b c d children :: rest, m =>
      setListSelection isSelected rest
        (setListSelection isSelected children
          (updateMap m (getNodeKey (.categoryNode a b c d children)) isSelected))
  | .geographyNode a b c children :: rest, m =>
      setListSelection isSelected rest
        (setListSelection isSelected children
          (updateMap m (getNodeKey (.geographyNode a b c children)) isSelected))

/-- `isCategoryAndAllSelected` on a child list: every listed node and its whole
subtree is selected. -/
def isAllSelectedList (sel : SelMap) : List TreeNodeType → Bool
  | [] => true
  | .categoryNode a b c d children :: rest =>
      (sel (getNodeKey (.categoryNode a b c d children))
        && isAllSelectedList sel children)
      && isAllSelectedList sel rest
  | .geographyNode a b c children :: rest =>
      (sel (getNodeKey (.geographyNode a b c children))
        && isAllSelectedList sel children)
      && isAllSelectedList sel rest

/-- `isCategoryAndAllSelected(node)`: the node's own entry is set and,
recursively, every child's subtree is fully selected (for a leaf this is just
`!!selection[key]`). -/
def isCategoryAndAllSelected (sel : SelMap) (n : TreeNodeType) : Bool :=
  sel (getNodeKey n) && isAllSelectedList sel (getNodeChildren n)

/-- `isLowestCategorySelected` on a child list: every leaf below any listed
node is selected. -/
def isLowestSelectedList (sel : SelMap) : List TreeNodeType → Bool
  | [] => true
  | .categoryNode a b c d children :: rest =>
      (if children.isEmpty then sel (getNodeKey (.categoryNode a b c d children))
       else isLowestSelectedList sel children)
      && isLowestSelectedList sel rest
  | .geographyNode a b c children :: rest =>
      (if children.isEmpty then sel (getNodeKey (.geographyNode a b c children))
       else isLowestSelectedList sel children)
      && isLowestSelectedList sel rest

/-- `isLowestCategorySelected(node)`: a leaf reports its own entry; an inner
node reports whether every leaf of its subtree is selected (its own entry is
not consulted). -/
def isLowestCategorySelected (sel : SelMap) (n : TreeNodeType) : Bool :=
  if (getNodeChildren n).isEmpty then sel (getNodeKey n)
  else isLowestSelectedList sel (getNodeChildren n)

/-- The leaves (nodes with an empty child list) of a forest in pre-order — the
nodes the `selectLowest` walk pushes onto `lowestNodes`. -/
def collectLowest : List TreeNodeType → List TreeNodeType
  | [] => []
  | .categoryNode a b c d children :: rest =>
      (if children.isEmpty then [TreeNodeType.categoryNode a b c d children]
       else collectLowest children) ++ collectLowest rest
  | .geographyNode a b c children :: rest =>
      (if children.isEmpty then [TreeNodeType.geographyNode a b c children]
       else collectLowest children) ++ collectLowest rest

/-- The `selectLowest` walk of `toggleLowestCategorySelection`: for every leaf,
write `newState` into the map and push the leaf onto `lowestNodes`; inner nodes
only recurse. The accumulator pairs the map with the collected leaves. -/
def selectLowest (newState : Bool) :
    List TreeNodeType → SelMap × List TreeNodeType → SelMap × List TreeNodeType
  | [], acc => acc
  | .categoryNode a b c d children :: rest, acc =>
      selectLowest newState rest
        (if children.isEmpty then
           (updateMap acc.1 (getNodeKey (.categoryNode a b c d children)) newState,
            acc.2 ++ [TreeNodeType.categoryNode a b c d children])
         else selectLowest newState children acc)
  | .geographyNode a b c children :: rest, acc =>
      selectLowest newState rest
        (if children.isEmpty then
           (updateMap acc.1 (getNodeKey (.geographyNode a b c children)) newState,
            acc.2 ++ [TreeNodeType.geographyNode a b c children])
         else selectLowest newState children acc)

/-- The external-array reconciliation loop shared verbatim by the two bulk
operations: for each collected node in order, if turning on append its name
unless already present, if turning off filter out every occurrence. -/
def applyItems (newState : Bool) (nodes : List TreeNodeType)
    (prevItems : List String) : List String :=
  nodes.foldl
    (fun newItems node =>
      if newState then
        (if newItems.contains (getNodeName node) then newItems
         else newItems ++ [getNodeName node])
      else newItems.filter (fun item => item != getNodeName node))
    prevItems

/-- `toggleSelection(node)`: flip the node's own map entry; if it became
selected append its name to the external array unless present, otherwise
remove every occurrence of its name. -/
def toggleSelection (n : TreeNodeType) (st : EngineState) : EngineState :=
  let nodeKey := getNodeKey n
  let newState := !(st.selection nodeKey)
  let nodeName := getNodeName n
  { selection := updateMap st.selection nodeKey newState
    isAllSelected := st.isAllSelected
    items :=
      if newState then
        (if st.items.contains nodeName then st.items else st.items ++ [nodeName])
      else st.items.filter (fun item => item != nodeName) }

/-- `toggleSelectAll()`: flip the aggregate flag; set every node's entry to the
new state; replace the external array with the full pre-order name list when
turning on and with `[]` when turning off. -/
def toggleSelectAll (data : List TreeNodeType) (st : EngineState) : EngineState :=
  let newState := !st.isAllSelected
  { selection := setListSelection newState data st.selection
    isAllSelected := newState
    items := if newState then collectNames data else [] }

/-- `toggleLowestCategorySelection(node)`: a leaf degenerates to a plain
toggle; otherwise negate `isLowestCategorySelected`, write the new state into
every leaf entry of the subtree, and reconcile the external array over the
collected leaves. -/
def toggleLowestCategorySelection (n : TreeNodeType) (st : EngineState) :
    EngineState :=
  if (getNodeChildren n).isEmpty then toggleSelection n st
  else
    let newState := !(isLowestCategorySelected st.selection n)
    let walked := selectLowest newState [n] (st.selection, [])
    { selection := walked.1
      isAllSelected := st.isAllSelected
      items := applyItems newState walked.2 st.items }

/-- `toggleAllCategorySelection(node)`: negate `isCategoryAndAllSelected`,
apply `setNodeSelection` to the whole subtree, and reconcile the external array
over every node of the subtree (`collectAllNodes` pre-order). -/
def toggleAllCategorySelection (n : TreeNodeType) (st : EngineState) :
    EngineState :=
  let newState := !(isCategoryAndAllSelected st.selection n)
  { selection := setListSelection newState [n] st.selection
    isAllSelected := st.isAllSelected
    items := applyItems newState (allNodes [n]) st.items }

/-- `findNodeByName`: depth-first search for the first node whose display name
equals `name`: test the node itself, then its children, then later siblings. -/
def findNodeByName : List TreeNodeType → String → Option TreeNodeType
  | [], _ => none
  | .categoryNode a b c d children :: rest, name =>
      if getNodeName (.categoryNode a b c d children) = name then
        some (.categoryNode a b c d children)
      else
        match findNodeByName children name with
        | some found => some found
        | none => findNodeByName rest name
  | .geographyNode a b c children :: rest, name =>
      if getNodeName (.geographyNode a b c children) = name then
        some (.geographyNode a b c children)
      else
        match findNodeByName children name with
        | some found => some found
        | none => findNodeByName rest name

/-- `handleSelectionChange`: the single-item bridge event. Locate the first
node with the event's item name; when found overwrite exactly that node's map
entry with the event's `selected` value; the external array and the aggregate
flag are never touched; when no node matches, leave everything unchanged. -/
def handleSelectionChange (data : List TreeNodeType) (itemName : String)
    (selected : Bool) (st : EngineState) : EngineState :=
  match findNodeByName data itemName with
  | some targetNode =>
      { st with selection := updateMap st.selection (getNodeKey targetNode) selected }
  | none => st

/-- The reset/seed expansion effect. Guarded by
`data && (shouldReset || !Object.keys(expanded).length)`: build a fresh map
holding one entry per ROOT node, set to `initiallyExpanded`, and invoke the
`onResetComplete` acknowledgment exactly when `shouldReset` was set. The
expansion map is an association list with JS-object semantics; the second
component counts acknowledgment-callback invocations of this effect run. -/
def expansionEffect (expanded : List (String × Bool)) (shouldReset : Bool)
    (data : List TreeNodeType) (initiallyExpanded : Bool) :
    List (String × Bool) × Nat :=
  if shouldReset || expanded.isEmpty then
    (data.map (fun node => (getNodeKey node, initiallyExpanded)),
     if shouldReset then 1 else 0)
  else (expanded, 0)

/-- The renderer's expansion read `const isExpanded = expanded[nodeKey]`, used
truthily (`hasChildren && isExpanded && renderTree(...)`): an absent key reads
as `undefined`, i.e. falsy. -/
def isExpandedRender (expanded : List (String × Bool)) (nodeKey : String) : Bool :=
  (expanded.lookup nodeKey).getD false

/-- The two tree flavours of the generic component (`nodeType` prop). -/
inductive NodeKind where
  | category
  | geography

/-- `actualSelectedItems`: prefer the generic `selectedItems` prop when it is a
non-empty array, otherwise fall back to the per-type legacy array. -/
def actualSelectedItemsProp (selectedItems selectedCategories selectedGeographies :
    List String) (nodeType : NodeKind) : List String :=
  if selectedItems.length > 0 then selectedItems
  else
    match nodeType with
    | .category => selectedCategories
    | .geography => selectedGeographies

/-- `actualSetSelectedItems`: prefer the generic setter whenever it is
supplied (`setSelectedItems || legacy setter`), independent of the arrays. -/
def actualSetSelectedItemsProp {α : Type} (setSelectedItems
    setSelectedCategories setSelectedGeographies : Option α)
    (nodeType : NodeKind) : Option α :=
  match setSelectedItems with
  | some s => some s
  | none =>
      match nodeType with
      | .category => setSelectedCategories
      | .geography => setSelectedGeographies

/-- Proof helper: fold an identical boolean write over the keys of a node
list — the net map effect of the `selectLowest` walk. -/
def setLeafKeys (v : Bool) (leaves : List TreeNodeType) (m : SelMap) : SelMap :=
  leaves.foldl (fun acc x => updateMap acc (getNodeKey x) v) m

/-- Fixture: the spec's concrete scenario tree `A{children:[A1{leaf},
A2{children:[A2a{leaf}]}]}` (category variant, no numeric ids, so each key
equals the display name). -/
def nodeA2a : TreeNodeType := .categoryNode none none "A2a" true []

/-- Fixture: leaf child A1 of A. -/
def nodeA1 : TreeNodeType := .categoryNode none none "A1" true []

/-- Fixture: inner child A2 of A, with single leaf child A2a. -/
def nodeA2 : TreeNodeType := .categoryNode none none "A2" true [nodeA2a]

/-- Fixture: the root A. -/
def nodeA : TreeNodeType := .categoryNode none none "A" true [nodeA1, nodeA2]

/-- Fixture: the initial engine state — empty selection, aggregate off, empty
external array. -/
def st0 : EngineState := { selection := emptyMap, isAllSelected := false, items := [] }

/-- Fixture: a two-leaf tree for the select-all round-trip counterexample. -/
def leafX : TreeNodeType := .categoryNode none none "X" true []

/-- Fixture: second leaf. -/
def leafY : TreeNodeType := .categoryNode none none "Y" true []

/-- Fixture: the two-leaf tree. -/
def dataXY : List TreeNodeType := [leafX, leafY]

/-- Fixture: a settled state over `dataXY` whose external array holds exactly
the name X — i.e. a partial selection that has been through inbound sync. -/
def stC3 : EngineState :=
  { selection := syncSelection ["X"] dataXY
    isAllSelected := isAllCurrentlySelected dataXY ["X"]
    items := ["X"] }

/-- Fixture: a state whose Selection Map disagrees with the external array
(entry for A1 absent, name A1 present in the array). -/
def stStale : EngineState := { selection := emptyMap, isAllSelected := false, items := ["A1"] }

/- ————————————————————————————————————————————————————————————————————— -/
/- Theorems.                                                               -/
/- ————————————————————————————————————————————————————————————————————— -/

theorem updateMap_apply (m : SelMap) (key : String) (v : Bool) (k : String) :
    updateMap m key v k = if k = key then v else m k := rfl

theorem allNodes_cons (n : TreeNodeType) (rest : List TreeNodeType) :
    allNodes (n :: rest) = n :: (allNodes (getNodeChildren n) ++ allNodes rest) := by
  cases n <;> simp [allNodes, getNodeChildren]

theorem collectNames_cons (n : TreeNodeType) (rest : List TreeNodeType) :
    collectNames (n :: rest)
      = getNodeName n :: (collectNames (getNodeChildren n) ++ collectNames rest) := by
  cases n <;> simp [collectNames, getNodeChildren]

theorem markSelectedNodes_cons (A : List String) (n : TreeNodeType)
    (rest : List TreeNodeType) (m : SelMap) :
    markSelectedNodes A (n :: rest) m
      = markSelectedNodes A rest
          (markSelectedNodes A (getNodeChildren n) (markStep A n m)) := by
  cases n <;> simp [markSelectedNodes, getNodeChildren]

theorem markStep_apply (A : List String) (n : TreeNodeType) (m : SelMap)
    (k : String) :
    markStep A n m k
      = (m k || (decide (getNodeKey n = k) && A.contains (getNodeName n))) := by
  unfold markStep updateMap
  cases hc : A.contains (getNodeName n) <;> by_cases hk : k = getNodeKey n <;>
    simp [hc, hk, eq_comm]

/-- Pointwise description of the inbound-sync traversal: a key ends up `true`
exactly when it was already `true` or some reachable node with that key has its
name in the external array. -/
theorem markSelectedNodes_apply (A : List String) :
    ∀ l : List TreeNodeType, ∀ m : SelMap, ∀ k : String,
      markSelectedNodes A l m k
        = (m k || (allNodes l).any
            (fun x => decide (getNodeKey x = k) && A.contains (getNodeName x))) := by
  refine forestInd _ ?_ ?_
  · intro m k
    simp [markSelectedNodes, allNodes]
  · intro n rest ih1 ih2 m k
    rw [markSelectedNodes_cons, ih2, ih1, markStep_apply, allNodes_cons]
    simp [Bool.or_assoc]

/-- C1: after inbound sync, under the data-model key-uniqueness invariant,
every reachable node's Selection Map entry equals array membership of its
name. -/
theorem inbound_sync_map_array_consistency (data : List TreeNodeType)
    (A : List String)
    (hkeys : ((allNodes data).map getNodeKey).Nodup)
    (n : TreeNodeType) (hn : n ∈ allNodes data) :
    syncSelection A data (getNodeKey n) = A.contains (getNodeName n) := by
  unfold syncSelection
  rw [markSelectedNodes_apply]
  simp only [emptyMap, Bool.false_or]
  cases hc : A.contains (getNodeName n) with
  | true =>
      have hmemn : getNodeName n ∈ A := by simpa using hc
      exact List.any_eq_true.mpr ⟨n, hn, by simp [hmemn]⟩
  | false =>
      refine List.any_eq_false.mpr ?_
      intro x hx hcontra
      simp only [Bool.and_eq_true, decide_eq_true_eq] at hcontra
      obtain ⟨hkey, hmem⟩ := hcontra
      have hxn : x = n := List.inj_on_of_nodup_map hkeys hx hn hkey
      rw [hxn] at hmem
      have : A.contains (getNodeName n) = true := by simpa using hmem
      rw [hc] at this
      exact Bool.false_ne_true this

/-- Witness for C1 at the concrete scenario tree with external array `[A1]`. -/
theorem inbound_sync_map_array_consistency_witness :
    syncSelection ["A1"] [nodeA] (getNodeKey nodeA1)
      = (["A1"] : List String).contains (getNodeName nodeA1) :=
  inbound_sync_map_array_consistency [nodeA] ["A1"]
    (by simp [allNodes, nodeA, nodeA1, nodeA2, nodeA2a, getNodeKey, getNodeChildren])
    nodeA1
    (by simp [allNodes, nodeA, nodeA1, nodeA2, nodeA2a, getNodeChildren])

/-- C9: an empty tree yields allItemNames = [], so the aggregate select-all
flag computed by inbound sync is false for every external array — never
vacuously true. -/
theorem empty_tree_not_all_selected (actualSelectedItems : List String) :
    isAllCurrentlySelected [] actualSelectedItems = false := by
  simp [isAllCurrentlySelected, collectNames]

/-- C2: the spec's concrete scenario. From the empty state,
`toggleAllCategorySelection(A)` leaves the external array exactly
`[A, A1, A2, A2a]` (depth-first, parents before children); a subsequent
`toggleLowestCategorySelection(A)` leaves exactly `[A, A2]` and does not
change the map entries of the non-leaf nodes A and A2 (both stay `true`). -/
theorem concrete_scenario_subtree_then_lowest :
    (toggleAllCategorySelection nodeA st0).items = ["A", "A1", "A2", "A2a"]
    ∧ (toggleLowestCategorySelection nodeA (toggleAllCategorySelection nodeA st0)).items
        = ["A", "A2"]
    ∧ (toggleLowestCategorySelection nodeA (toggleAllCategorySelection nodeA st0)).selection
        (getNodeKey nodeA)
        = (toggleAllCategorySelection nodeA st0).selection (getNodeKey nodeA)
    ∧ (toggleLowestCategorySelection nodeA (toggleAllCategorySelection nodeA st0)).selection
        (getNodeKey nodeA2)
        = (toggleAllCategorySelection nodeA st0).selection (getNodeKey nodeA2)
    ∧ (toggleAllCategorySelection nodeA st0).selection (getNodeKey nodeA) = true
    ∧ (toggleAllCategorySelection nodeA st0).selection (getNodeKey nodeA2) = true := by
  refine ⟨?_, ?_, ?_, ?_, ?_, ?_⟩ <;>
    simp [toggleAllCategorySelection, toggleLowestCategorySelection, nodeA, nodeA1,
      nodeA2, nodeA2a, st0, applyItems, allNodes, isCategoryAndAllSelected,
      isAllSelectedList, isLowestCategorySelected, isLowestSelectedList, selectLowest,
      setListSelection, collectLowest, getNodeKey, getNodeName, getNodeChildren,
      emptyMap, updateMap]

/-- C7 counterexample: in a state where the node's map entry (absent, i.e.
false) disagrees with the external array (name present), toggling twice loses
the name from the array, so the pre-toggle state is NOT restored. -/
theorem toggle_twice_cex :
    getNodeName nodeA1 ∈ stStale.items
    ∧ getNodeName nodeA1 ∉ (toggleSelection nodeA1 (toggleSelection nodeA1 stStale)).items := by
  constructor <;>
    simp [toggleSelection, stStale, nodeA1, getNodeKey, getNodeName, emptyMap, updateMap]

/-- C7 amended: when the node's map entry agrees with array membership of its
name (the settled invariant), toggling twice restores the Selection Map
pointwise, the aggregate flag, and the external array's membership, and
introduces no duplicates. -/
theorem toggle_twice_amended (n : TreeNodeType) (st : EngineState)
    (h : st.selection (getNodeKey n) = st.items.contains (getNodeName n)) :
    (∀ k, (toggleSelection n (toggleSelection n st)).selection k = st.selection k)
    ∧ (toggleSelection n (toggleSelection n st)).isAllSelected = st.isAllSelected
    ∧ (∀ s, s ∈ (toggleSelection n (toggleSelection n st)).items ↔ s ∈ st.items)
    ∧ (st.items.Nodup → (toggleSelection n (toggleSelection n st)).items.Nodup) := by
  cases hb : st.selection (getNodeKey n) with
  | false =>
      have hc : st.items.contains (getNodeName n) = false := by rw [← h]; exact hb
      have hnm : getNodeName n ∉ st.items := by simpa using hc
      have hfilter : (st.items ++ [getNodeName n]).filter
          (fun item => item != getNodeName n) = st.items := by
        rw [List.filter_append]
        have h1 : st.items.filter (fun item => item != getNodeName n) = st.items :=
          List.filter_eq_self.mpr (fun a ha => by
            simp only [bne_iff_ne, ne_eq, decide_eq_true_eq]
            exact ne_of_mem_of_not_mem ha hnm)
        have h2 : ([getNodeName n] : List String).filter
            (fun item => item != getNodeName n) = [] := by simp
        rw [h1, h2, List.append_nil]
      have hst1 : toggleSelection n st
          = ⟨updateMap st.selection (getNodeKey n) true, st.isAllSelected,
             st.items ++ [getNodeName n]⟩ := by
        simp [toggleSelection, hb, hnm]
      have hst2 : toggleSelection n (toggleSelection n st)
          = ⟨updateMap (updateMap st.selection (getNodeKey n) true) (getNodeKey n) false,
             st.isAllSelected, st.items⟩ := by
        rw [hst1]
        simp [toggleSelection, updateMap, hfilter]
      rw [hst2]
      refine ⟨?_, rfl, fun s => Iff.rfl, fun hnd => hnd⟩
      intro k
      by_cases hk : k = getNodeKey n <;> simp [updateMap, hk]
      exact hb
  | true =>
      have hc : st.items.contains (getNodeName n) = true := by rw [← h]; exact hb
      have hmem : getNodeName n ∈ st.items := by simpa using hc
      have hnotf : getNodeName n ∉ st.items.filter
          (fun item => item != getNodeName n) := by
        simp [List.mem_filter]
      have hst1 : toggleSelection n st
          = ⟨updateMap st.selection (getNodeKey n) false, st.isAllSelected,
             st.items.filter (fun item => item != getNodeName n)⟩ := by
        simp [toggleSelection, hb]
      have hst2 : toggleSelection n (toggleSelection n st)
          = ⟨updateMap (updateMap st.selection (getNodeKey n) false) (getNodeKey n) true,
             st.isAllSelected,
             st.items.filter (fun item => item != getNodeName n) ++ [getNodeName n]⟩ := by
        rw [hst1]
        simp [toggleSelection, updateMap, hnotf]
      rw [hst2]
      refine ⟨?_, rfl, ?_, ?_⟩
      · intro k
        by_cases hk : k = getNodeKey n <;> simp [updateMap, hk]
        exact hb
      · intro s
        by_cases hs : s = getNodeName n <;>
          simp [List.mem_append, List.mem_filter, hs, bne_iff_ne, hmem]
      · intro hnd
        simp [List.nodup_append, hnd.filter, hnotf]

/-- Witness for the amended C7 at the leaf A1 in the consistent empty state. -/
theorem toggle_twice_amended_witness :
    "A1" ∈ (toggleSelection nodeA1 (toggleSelection nodeA1 st0)).items ↔ "A1" ∈ st0.items :=
  (toggle_twice_amended nodeA1 st0
    (by simp [st0, nodeA1, emptyMap, getNodeKey, getNodeName])).2.2.1 "A1"

theorem findNodeByName_cons (n : TreeNodeType) (rest : List TreeNodeType)
    (name : String) :
    findNodeByName (n :: rest) name
      = if getNodeName n = name then some n
        else
          match findNodeByName (getNodeChildren n) name with
          | some found => some found
          | none => findNodeByName rest name := by
  cases n <;> simp [findNodeByName, getNodeChildren]

/-- The depth-first name search is the first match over the pre-order node
list: the node itself is tested before its subtree, the subtree before the
later siblings. -/
theorem findNodeByName_eq_find (name : String) :
    ∀ l : List TreeNodeType,
      findNodeByName l name
        = (allNodes l).find? (fun x => decide (getNodeName x = name)) := by
  refine forestInd _ ?_ ?_
  · simp [findNodeByName, allNodes]
  · intro n rest ih1 ih2
    rw [findNodeByName_cons, allNodes_cons]
    by_cases hname : getNodeName n = name
    · simp [hname, List.find?_cons_of_pos]
    · rw [List.find?_cons_of_neg _ (by simp [hname]), List.find?_append, if_neg hname,
        ih1, ih2]
      cases (allNodes (getNodeChildren n)).find? (fun x => decide (getNodeName x = name)) <;>
        simp [Option.or]

/-- C8: a single-item bridge event sets only the map entry of the first node
in depth-first order whose display name equals the event's item name, to the
event's selected value; the external array and aggregate flag are untouched;
when no node of the current tree carries that name, the whole state is
unchanged (silent no-op). -/
theorem bridge_selection_change_spec (data : List TreeNodeType) (itemName : String)
    (selected : Bool) (st : EngineState) :
    (∀ f, (allNodes data).find? (fun x => decide (getNodeName x = itemName)) = some f →
       (handleSelectionChange data itemName selected st).selection (getNodeKey f) = selected
       ∧ (∀ k, k ≠ getNodeKey f →
           (handleSelectionChange data itemName selected st).selection k = st.selection k)
       ∧ (handleSelectionChange data itemName selected st).items = st.items
       ∧ (handleSelectionChange data itemName selected st).isAllSelected = st.isAllSelected)
    ∧ ((allNodes data).find? (fun x => decide (getNodeName x = itemName)) = none →
       handleSelectionChange data itemName selected st = st) := by
  constructor
  · intro f hf
    have hfind : findNodeByName data itemName = some f := by
      rw [findNodeByName_eq_find]; exact hf
    simp [handleSelectionChange, hfind, updateMap]
    intro k hk
    simp [hk]
  · intro hf
    have hfind : findNodeByName data itemName = none := by
      rw [findNodeByName_eq_find]; exact hf
    simp [handleSelectionChange, hfind]

/-- Witness for C8: deselecting A2 through the bridge on the scenario tree
leaves the external array untouched. -/
theorem bridge_selection_change_spec_witness :
    (handleSelectionChange [nodeA] "A2" false st0).items = st0.items :=
  ((bridge_selection_change_spec [nodeA] "A2" false st0).1 nodeA2
    (by simp [allNodes, nodeA, nodeA1, nodeA2, nodeA2a, getNodeChildren, getNodeName,
        List.find?])).2.2.1

/-- C10 counterexample: with the generic array supplied but empty AND a generic
setter supplied, the selected-names source falls back to the legacy array, but
the mutator target stays the generic setter — the claim's "and mutator target"
half fails (setters tagged 0 = generic, 1 = legacy category, 2 = legacy
geography). -/
theorem generic_prop_fallback_cex :
    actualSelectedItemsProp [] ["X"] [] NodeKind.category = ["X"]
    ∧ actualSetSelectedItemsProp (α := ℕ) (some 0) (some 1) (some 2) NodeKind.category
        ≠ some 1 := by
  constructor
  · rfl
  · simp [actualSetSelectedItemsProp]

/-- C10 amended: an empty generic `selectedItems` array falls back to the
legacy per-type array as the selected-names SOURCE (so an empty generic array
never overrides legacy selections), while the MUTATOR falls back to the legacy
setter exactly when the generic setter is absent, independent of the arrays. -/
theorem generic_prop_fallback_amended {α : Type} (s : α)
    (selectedCategories selectedGeographies : List String)
    (setSelectedCategories setSelectedGeographies : Option α) :
    actualSelectedItemsProp [] selectedCategories selectedGeographies .category
        = selectedCategories
    ∧ actualSelectedItemsProp [] selectedCategories selectedGeographies .geography
        = selectedGeographies
    ∧ actualSetSelectedItemsProp (some s) setSelectedCategories setSelectedGeographies
        .category = some s
    ∧ actualSetSelectedItemsProp (some s) setSelectedCategories setSelectedGeographies
        .geography = some s
    ∧ actualSetSelectedItemsProp none setSelectedCategories setSelectedGeographies
        .category = setSelectedCategories
    ∧ actualSetSelectedItemsProp none setSelectedCategories setSelectedGeographies
        .geography = setSelectedGeographies :=
  ⟨rfl, rfl, rfl, rfl, rfl, rfl⟩

/-- Looking a key up in the freshly rebuilt expansion map: present with the
default value exactly for the seeded keys. -/
theorem resetExpansion_lookup (init : Bool) :
    ∀ (data : List TreeNodeType) (k : String),
      (data.map (fun node => (getNodeKey node, init))).lookup k
        = if k ∈ data.map getNodeKey then some init else none := by
  intro data
  induction data with
  | nil => intro k; simp
  | cons n rest ih =>
      intro k
      by_cases hk : k = getNodeKey n
      · simp [List.lookup, hk]
      · have hbeq : (k == getNodeKey n) = false := by simp [hk]
        simp [List.lookup, hbeq, ih, hk]

/-- C4 counterexample: after a forced reset on the scenario tree, the non-root
node A1 — a node of the tree — has NO entry in the rebuilt expansion map, so
the map is not rebuilt "with an entry for every node". -/
theorem forced_reset_cex :
    nodeA1 ∈ allNodes [nodeA]
    ∧ ((expansionEffect [] true [nodeA] true).1.lookup (getNodeKey nodeA1)) ≠ some true := by
  constructor
  · simp [allNodes, nodeA, nodeA1, nodeA2, nodeA2a, getNodeChildren]
  · simp [expansionEffect, nodeA, nodeA1, getNodeKey, List.lookup]

/-- C4 amended: a forced reset rebuilds the expansion map from scratch with an
entry for every ROOT node set to the configured default and no entry for any
other key, and the acknowledgment callback is invoked exactly once per reset
run. -/
theorem forced_reset_amended (expanded : List (String × Bool))
    (data : List TreeNodeType) (init : Bool) :
    (expansionEffect expanded true data init).2 = 1
    ∧ (∀ n ∈ data,
        ((expansionEffect expanded true data init).1.lookup (getNodeKey n)) = some init)
    ∧ (∀ k, k ∉ data.map getNodeKey →
        ((expansionEffect expanded true data init).1.lookup k) = none) := by
  refine ⟨by simp [expansionEffect], ?_, ?_⟩
  · intro n hn
    have : getNodeKey n ∈ data.map getNodeKey := List.mem_map_of_mem _ hn
    simp [expansionEffect, resetExpansion_lookup, this]
  · intro k hk
    simp [expansionEffect, resetExpansion_lookup, hk]

/-- Witness for the amended C4 at the scenario tree's root. -/
theorem forced_reset_amended_witness :
    ((expansionEffect [] true [nodeA] true).1.lookup (getNodeKey nodeA)) = some true :=
  (forced_reset_amended [] [nodeA] true).2.1 nodeA (by simp)

/-- C5 counterexample: after the mount seeding run with `initiallyExpanded =
true`, the never-touched non-root node A2 (which has children) has no map
entry and the renderer reports it NOT expanded — the default is not applied
lazily to absent keys. -/
theorem lazy_seed_cex :
    ((expansionEffect [] false [nodeA] true).1.lookup (getNodeKey nodeA2)) = none
    ∧ (getNodeChildren nodeA2).isEmpty = false
    ∧ isExpandedRender (expansionEffect [] false [nodeA] true).1 (getNodeKey nodeA2)
        = false := by
  refine ⟨?_, by simp [nodeA2, nodeA2a, getNodeChildren], ?_⟩ <;>
    simp [expansionEffect, isExpandedRender, nodeA, nodeA2, getNodeKey, List.lookup]

/-- C5 amended: a key not present in the Expansion Map is reported collapsed
(false) by the renderer's truthy read, regardless of the configured
initiallyExpanded default; only root nodes are ever seeded. -/
theorem lazy_seed_amended (expanded : List (String × Bool)) (k : String)
    (habsent : expanded.lookup k = none) :
    isExpandedRender expanded k = false := by
  simp [isExpandedRender, habsent]

/-- Witness for the amended C5 at the non-root inner node A2. -/
theorem lazy_seed_amended_witness :
    isExpandedRender (expansionEffect [] false [nodeA] true).1 (getNodeKey nodeA2) = false :=
  lazy_seed_amended _ _
    (by simp [expansionEffect, nodeA, nodeA2, getNodeKey, List.lookup])

/-- C3 counterexample: from the settled partial selection `[X]` over the
two-leaf tree `{X, Y}`, toggling Select All twice ends with an empty external
array — the original contents (containing X) are NOT restored. -/
theorem selectAll_roundtrip_cex :
    stC3.isAllSelected = isAllCurrentlySelected dataXY stC3.items
    ∧ "X" ∈ stC3.items
    ∧ "X" ∉ (toggleSelectAll dataXY (inboundSync dataXY (toggleSelectAll dataXY stC3))).items := by
  refine ⟨rfl, by simp [stC3], ?_⟩
  simp [toggleSelectAll, inboundSync, stC3, dataXY, leafX, leafY, isAllCurrentlySelected,
    collectNames, getNodeName]

/-- C3 amended: starting from a settled state (aggregate flag consistent with
the array) whose external array is empty or holds exactly the tree's names as
a set, toggling Select All twice (with the inbound sync that the first array
change triggers running in between) restores the external array's contents as
a set of names. -/
theorem selectAll_roundtrip_amended (data : List TreeNodeType) (st : EngineState)
    (hsettled : st.isAllSelected = isAllCurrentlySelected data st.items)
    (hitems : st.items = [] ∨ ∀ s, (s ∈ st.items ↔ s ∈ collectNames data)) :
    ∀ s, s ∈ (toggleSelectAll data (inboundSync data (toggleSelectAll data st))).items
          ↔ s ∈ st.items := by
  by_cases hn : collectNames data = []
  · have hall : ∀ A, isAllCurrentlySelected data A = false := by
      intro A; simp [isAllCurrentlySelected, hn]
    have hb : st.isAllSelected = false := by rw [hsettled, hall]
    have hfin : (toggleSelectAll data (inboundSync data (toggleSelectAll data st))).items
        = [] := by
      simp [toggleSelectAll, inboundSync, hb, hall, hn]
    rw [hfin]
    intro s
    simp only [List.not_mem_nil, false_iff]
    rcases hitems with he | hiff
    · rw [he]; simp
    · intro hs
      have := (hiff s).mp hs
      rw [hn] at this
      simp at this
  · have hlen : (0 : ℕ) < (collectNames data).length := List.length_pos.mpr hn
    have hself : isAllCurrentlySelected data (collectNames data) = true := by
      simp [isAllCurrentlySelected, hlen]
    have hempty_false : isAllCurrentlySelected data [] = false := by
      obtain ⟨nm0, hnm0⟩ := List.exists_mem_of_ne_nil _ hn
      simp [isAllCurrentlySelected]
      exact fun _ => ⟨nm0, hnm0⟩
    rcases hitems with he | hiff
    · have hb : st.isAllSelected = false := by
        rw [hsettled, he, hempty_false]
      have hfin : (toggleSelectAll data (inboundSync data (toggleSelectAll data st))).items
          = [] := by
        simp [toggleSelectAll, inboundSync, hb, hself]
      rw [hfin, he]
      intro s; rfl
    · have hballmem : ∀ nm ∈ collectNames data, st.items.contains nm = true := by
        intro nm h
        simpa using (hiff nm).mpr h
      have hb : st.isAllSelected = true := by
        rw [hsettled]
        simp [isAllCurrentlySelected, hlen]
        intro nm hnm
        simpa using hballmem nm hnm
      have hfin : (toggleSelectAll data (inboundSync data (toggleSelectAll data st))).items
          = collectNames data := by
        simp [toggleSelectAll, inboundSync, hb, hempty_false]
      rw [hfin]
      intro s
      exact (hiff s).symm

/-- Witness for the amended C3: from the settled empty state over the scenario
tree, the double toggle leaves A's membership unchanged. -/
theorem selectAll_roundtrip_amended_witness :
    "A" ∈ (toggleSelectAll [nodeA] (inboundSync [nodeA] (toggleSelectAll [nodeA] st0))).items
      ↔ "A" ∈ st0.items :=
  selectAll_roundtrip_amended [nodeA] st0
    (by simp [st0, isAllCurrentlySelected, collectNames, nodeA, nodeA1, nodeA2,
        nodeA2a, getNodeName])
    (Or.inl rfl) "A"

theorem isLowestSelectedList_cons (sel : SelMap) (n : TreeNodeType)
    (rest : List TreeNodeType) :
    isLowestSelectedList sel (n :: rest)
      = (isLowestCategorySelected sel n && isLowestSelectedList sel rest) := by
  cases n <;> simp [isLowestSelectedList, isLowestCategorySelected, getNodeChildren, getNodeKey]

theorem collectLowest_cons (n : TreeNodeType) (rest : List TreeNodeType) :
    collectLowest (n :: rest)
      = (if (getNodeChildren n).isEmpty then [n] else collectLowest (getNodeChildren n))
          ++ collectLowest rest := by
  cases n <;> simp [collectLowest, getNodeChildren]

theorem selectLowest_cons (v : Bool) (n : TreeNodeType)
    (rest : List TreeNodeType) (acc : SelMap × List TreeNodeType) :
    selectLowest v (n :: rest) acc
      = selectLowest v rest
          (if (getNodeChildren n).isEmpty then
             (updateMap acc.1 (getNodeKey n) v, acc.2 ++ [n])
           else selectLowest v (getNodeChildren n) acc) := by
  cases n <;> simp [selectLowest, getNodeChildren]

/-- The leaves the `selectLowest` walk collects are exactly the pre-order
nodes with an empty child list. -/
theorem collectLowest_filter :
    ∀ l : List TreeNodeType,
      collectLowest l = (allNodes l).filter (fun x => (getNodeChildren x).isEmpty) := by
  refine forestInd _ ?_ ?_
  · simp [collectLowest, allNodes]
  · intro n rest ih1 ih2
    rw [collectLowest_cons, allNodes_cons, List.filter_cons, List.filter_append]
    cases h : (getNodeChildren n).isEmpty with
    | true =>
        have hnil : getNodeChildren n = [] := List.isEmpty_iff.mp h
        simp [h, hnil, allNodes, ← ih2]
    | false =>
        simp [h, ← ih1, ← ih2]

/-- `isLowestCategorySelected` over a list asks exactly that every collected
leaf's map entry is set — the code's realization of areAllLeavesSelected. -/
theorem isLowest_eq_all_leaves (sel : SelMap) :
    ∀ l : List TreeNodeType,
      isLowestSelectedList sel l
        = (collectLowest l).all (fun x => sel (getNodeKey x)) := by
  refine forestInd _ ?_ ?_
  · simp [isLowestSelectedList, collectLowest]
  · intro n rest ih1 ih2
    rw [isLowestSelectedList_cons, collectLowest_cons, List.all_append]
    cases h : (getNodeChildren n).isEmpty with
    | true => simp [isLowestCategorySelected, h, ih2]
    | false => simp [isLowestCategorySelected, h, ih1, ih2]

/-- The `selectLowest` walk equals: fold the one boolean write over the
collected leaves, and append those leaves to the accumulator. -/
theorem selectLowest_char (v : Bool) :
    ∀ l : List TreeNodeType, ∀ acc : SelMap × List TreeNodeType,
      selectLowest v l acc
        = (setLeafKeys v (collectLowest l) acc.1, acc.2 ++ collectLowest l) := by
  refine forestInd _ ?_ ?_
  · intro acc
    simp [selectLowest, collectLowest, setLeafKeys]
  · intro n rest ih1 ih2 acc
    rw [selectLowest_cons, collectLowest_cons]
    cases h : (getNodeChildren n).isEmpty with
    | true =>
        rw [if_pos rfl, ih2]
        simp [setLeafKeys, List.foldl_append]
    | false =>
        rw [if_neg (by simp [h]), ih1, ih2]
        simp [setLeafKeys, List.foldl_append]

theorem setLeafKeys_apply (v : Bool) :
    ∀ (leaves : List TreeNodeType) (m : SelMap) (k : String),
      setLeafKeys v leaves m k
        = if k ∈ leaves.map getNodeKey then v else m k := by
  intro leaves
  induction leaves with
  | nil => intro m k; simp [setLeafKeys]
  | cons x l ih =>
      intro m k
      have hstep : setLeafKeys v (x :: l) m
          = setLeafKeys v l (updateMap m (getNodeKey x) v) := rfl
      rw [hstep, ih]
      by_cases hk : k = getNodeKey x <;>
        by_cases hl : k ∈ l.map getNodeKey <;>
          simp [updateMap, hk, hl]

theorem applyItems_true_cons (x : TreeNodeType) (nodes : List TreeNodeType)
    (items : List String) :
    applyItems true (x :: nodes) items
      = applyItems true nodes
          (if items.contains (getNodeName x) then items else items ++ [getNodeName x]) := rfl

theorem applyItems_false_cons (x : TreeNodeType) (nodes : List TreeNodeType)
    (items : List String) :
    applyItems false (x :: nodes) items
      = applyItems false nodes (items.filter (fun item => item != getNodeName x)) := rfl

/-- Adding pass of the reconciliation loop: afterwards a name is present iff
it was present before or is the name of a processed node. -/
theorem applyItems_true_mem :
    ∀ (nodes : List TreeNodeType) (items : List String) (s : String),
      s ∈ applyItems true nodes items ↔ (s ∈ items ∨ s ∈ nodes.map getNodeName) := by
  intro nodes
  induction nodes with
  | nil => intro items s; simp [applyItems]
  | cons x nodes ih =>
      intro items s
      rw [applyItems_true_cons]
      cases hc : items.contains (getNodeName x) with
      | true =>
          have hmemx : getNodeName x ∈ items := by simpa using hc
          by_cases hs : s = getNodeName x <;> simp [hc, ih, hs, hmemx]
      | false =>
          simp [hc, ih, List.mem_append, or_assoc]

/-- Removing pass of the reconciliation loop: afterwards a name is present iff
it was present before and is not the name of any processed node. -/
theorem applyItems_false_mem :
    ∀ (nodes : List TreeNodeType) (items : List String) (s : String),
      s ∈ applyItems false nodes items ↔ (s ∈ items ∧ s ∉ nodes.map getNodeName) := by
  intro nodes
  induction nodes with
  | nil => intro items s; simp [applyItems]
  | cons x nodes ih =>
      intro items s
      rw [applyItems_false_cons]
      simp [ih, List.mem_filter, bne_iff_ne, not_or]
      tauto

/-- C6: for a node with at least one child (under the key-uniqueness
data-model invariant on its subtree), `toggleLowestCategorySelection` sets
exactly the map entries of the leaves of the subtree to the negation of the
all-leaves-selected predicate, adds or removes exactly the leaf names in the
external array (skipping names already present when adding), and leaves every
other key — in particular the entry of every non-leaf node of the subtree,
the node itself included — unchanged. -/
theorem toggleLowest_leaf_only_spec (n : TreeNodeType) (st : EngineState)
    (hchild : (getNodeChildren n).isEmpty = false)
    (hkeys : ((allNodes [n]).map getNodeKey).Nodup) :
    isLowestCategorySelected st.selection n
        = (collectLowest [n]).all (fun x => st.selection (getNodeKey x))
    ∧ collectLowest [n] = (allNodes [n]).filter (fun x => (getNodeChildren x).isEmpty)
    ∧ (∀ x ∈ collectLowest [n],
        (toggleLowestCategorySelection n st).selection (getNodeKey x)
          = !(isLowestCategorySelected st.selection n))
    ∧ (∀ k, k ∉ (collectLowest [n]).map getNodeKey →
        (toggleLowestCategorySelection n st).selection k = st.selection k)
    ∧ (∀ p ∈ allNodes [n], (getNodeChildren p).isEmpty = false →
        (toggleLowestCategorySelection n st).selection (getNodeKey p)
          = st.selection (getNodeKey p))
    ∧ (isLowestCategorySelected st.selection n = false →
        ∀ s, s ∈ (toggleLowestCategorySelection n st).items
          ↔ (s ∈ st.items ∨ s ∈ (collectLowest [n]).map getNodeName))
    ∧ (isLowestCategorySelected st.selection n = true →
        ∀ s, s ∈ (toggleLowestCategorySelection n st).items
          ↔ (s ∈ st.items ∧ s ∉ (collectLowest [n]).map getNodeName))
    ∧ (toggleLowestCategorySelection n st).isAllSelected = st.isAllSelected := by
  have hcl : collectLowest [n] = collectLowest (getNodeChildren n) := by
    rw [collectLowest_cons]
    simp [hchild, collectLowest]
  have hstate : toggleLowestCategorySelection n st
      = ⟨setLeafKeys (!(isLowestCategorySelected st.selection n)) (collectLowest [n])
           st.selection,
         st.isAllSelected,
         applyItems (!(isLowestCategorySelected st.selection n)) (collectLowest [n])
           st.items⟩ := by
    simp [toggleLowestCategorySelection, hchild, selectLowest_char]
  have hframe : ∀ k, k ∉ (collectLowest [n]).map getNodeKey →
      (toggleLowestCategorySelection n st).selection k = st.selection k := by
    intro k hk
    rw [hstate]
    simp only [setLeafKeys_apply]
    rw [if_neg hk]
  refine ⟨?_, collectLowest_filter [n], ?_, hframe, ?_, ?_, ?_, by rw [hstate]⟩
  · rw [isLowestCategorySelected, if_neg (by simp [hchild]), isLowest_eq_all_leaves, hcl]
  · intro x hx
    rw [hstate]
    simp only [setLeafKeys_apply]
    rw [if_pos (List.mem_map_of_mem _ hx)]
  · intro p hp hpchild
    refine hframe (getNodeKey p) ?_
    intro hmem
    obtain ⟨x, hxmem, hxkey⟩ := List.mem_map.mp hmem
    have hxall : x ∈ allNodes [n] := by
      have := collectLowest_filter [n] ▸ hxmem
      exact (List.mem_filter.mp this).1
    have hxleaf : (getNodeChildren x).isEmpty = true := by
      have := collectLowest_filter [n] ▸ hxmem
      exact (List.mem_filter.mp this).2
    have hxp : x = p := List.inj_on_of_nodup_map hkeys hxall hp hxkey
    rw [hxp] at hxleaf
    rw [hpchild] at hxleaf
    exact Bool.false_ne_true hxleaf
  · intro hoff s
    rw [hstate]
    simp only [hoff, Bool.not_false]
    exact applyItems_true_mem (collectLowest [n]) st.items s
  · intro hon s
    rw [hstate]
    simp only [hon, Bool.not_true]
    exact applyItems_false_mem (collectLowest [n]) st.items s

/-- Witness for C6: the leaf A1's entry is written with the negated predicate
when toggling lowest-level on the scenario root A from the empty state. -/
theorem toggleLowest_leaf_only_spec_witness :
    (toggleLowestCategorySelection nodeA st0).selection (getNodeKey nodeA1)
      = !(isLowestCategorySelected st0.selection nodeA) :=
  (toggleLowest_leaf_only_spec nodeA st0
      (by simp [nodeA, nodeA1, nodeA2, getNodeChildren])
      (by simp [allNodes, nodeA, nodeA1, nodeA2, nodeA2a, getNodeChildren, getNodeKey])).2.2.1
    nodeA1
    (by simp [collectLowest, nodeA, nodeA1, nodeA2, nodeA2a, getNodeChildren])

end TreeListSpec
